import Mathlib

/-!
Verification of the binary serialization framework in
`src/Serialization/serializer.cpp` (classes `Archive` / `FileArchive` and
the demo object `Foo`).

Modelling conventions (shallow embedding):
* A byte is a `Nat` (values below 256 by construction of the encoders).
* A 32-bit machine value (`int`, `unsigned int`) is represented by its
  4-byte little-endian memory image, i.e. a `Nat` taken modulo 2^32.
  "Bit-identical" equality of machine values is equality of these images.
* A `std::string` is the list of its character bytes (no implicit
  terminator; the terminator byte written by the codec appears explicitly).
* The file stream (`std::fstream`) is an `FStream`: a validity flag
  (`good()`), the list of bytes written so far (`out`), and the list of
  bytes remaining to be read (`inp`).  A read that asks for more bytes
  than remain leaves the destination unchanged and marks the stream
  invalid (failbit); no claim in this development exercises the partial
  extraction that `std::istream::read` performs on a short read.
* Operations that can trip the `assert` in `FileArchive::SerializeBuffer`
  return `Option`; `none` models process abort.
-/

namespace Serializer

/-- Little-endian 4-byte memory image of a 32-bit value, as written by
`file_->write(reinterpret_cast<char*>(&val), sizeof(val))` on a
little-endian machine.  Only the low 32 bits of `n` contribute. -/
def toBytes32 (n : Nat) : List Nat :=
  [n % 256, n / 256 % 256, n / 65536 % 256, n / 16777216 % 256]

/-- Recompose a 32-bit value from its 4-byte little-endian image, as done
by `file_->read(reinterpret_cast<char*>(&val), sizeof(val))`. -/
def fromBytes32 : List Nat → Nat
  | [b0, b1, b2, b3] => b0 + 256 * b1 + 65536 * b2 + 16777216 * b3
  | _ => 0

theorem fromBytes32_toBytes32 (n : Nat) :
    fromBytes32 (toBytes32 n) = n % 4294967296 := by
  simp only [toBytes32, fromBytes32]
  omega

theorem toBytes32_length (n : Nat) : (toBytes32 n).length = 4 := rfl

/-- `Archive::Mode`. -/
inductive Mode where
  | Write
  | Read
  | SIZE
deriving DecidableEq, Repr

/-- State of the `std::fstream` owned by a `FileArchive`:
`valid` models `(bool)*file_` (the stream's `good()` state), `out` the
bytes written so far, `inp` the bytes remaining to be read. -/
structure FStream where
  valid : Bool
  out : List Nat
  inp : List Nat
deriving DecidableEq, Repr

/-- `file_->write(buf, n)`: append bytes to the stream. -/
def FStream.writeBytes (s : FStream) (bs : List Nat) : FStream :=
  { s with out := s.out ++ bs }

/-- `file_->read(buf, n)`: consume `n` bytes if available; otherwise the
stream enters a failed state (failbit) and no bytes are delivered. -/
def FStream.readBytes (s : FStream) (n : Nat) : FStream × Option (List Nat) :=
  if n ≤ s.inp.length then
    ({ s with inp := s.inp.drop n }, some (s.inp.take n))
  else
    ({ s with valid := false }, none)

/-- `FileArchive`: an `Archive` (mode fixed at construction) bound to one
file stream.  The `path_` member is carried but never influences the
codec. -/
structure FileArchive where
  mode : Mode
  path : String
  stream : FStream
deriving DecidableEq, Repr

/-- `Archive::IsWrite`. -/
def FileArchive.IsWrite (a : FileArchive) : Bool :=
  match a.mode with
  | Mode.Write => true
  | _ => false

/-- `Archive::IsRead`. -/
def FileArchive.IsRead (a : FileArchive) : Bool :=
  match a.mode with
  | Mode.Read => true
  | _ => false

/-- `FileArchive::IsStreamValid`: `file_ && *file_`; `file_` is always
non-null after construction, so validity is the stream's `good()` state. -/
def FileArchive.IsStreamValid (a : FileArchive) : Bool :=
  a.stream.valid

/-- `FileArchive::FileArchive(path, mode)`: opens the stream on `path`.
Whether the open succeeds is an environment fact, passed as `openOk`;
`content` is the file's existing content (consumed in Read mode). -/
def mkFileArchive (path : String) (mode : Mode) (openOk : Bool)
    (content : List Nat) : FileArchive :=
  { mode := mode, path := path
    stream := { valid := openOk, out := [], inp := content } }

/-- `FileArchive::operator<<(int&)`: no-op on an invalid stream; in Write
mode emits the 4-byte image of `val`; otherwise reads 4 bytes into `val`.
`val` is the 32-bit memory image of the signed integer. -/
def FileArchive.serializeInt (a : FileArchive) (val : Nat) :
    FileArchive × Nat :=
  if ¬a.IsStreamValid then (a, val)
  else if a.IsWrite then
    ({ a with stream := a.stream.writeBytes (toBytes32 val) }, val)
  else
    match a.stream.readBytes 4 with
    | (s1, some bs) => ({ a with stream := s1 }, fromBytes32 bs)
    | (s1, none) => ({ a with stream := s1 }, val)

/-- `FileArchive::operator<<(unsigned int&)`: same body as the signed
overload, acting on the 32-bit image. -/
def FileArchive.serializeUInt (a : FileArchive) (val : Nat) :
    FileArchive × Nat :=
  if ¬a.IsStreamValid then (a, val)
  else if a.IsWrite then
    ({ a with stream := a.stream.writeBytes (toBytes32 val) }, val)
  else
    match a.stream.readBytes 4 with
    | (s1, some bs) => ({ a with stream := s1 }, fromBytes32 bs)
    | (s1, none) => ({ a with stream := s1 }, val)

/-- `FileArchive::operator<<(std::string&)`.  Write mode: `len =
val.length() + 1` (an `int`, hence the 32-bit reduction), written as 4
bytes, then `len` bytes of `val.c_str()` (the characters plus one
terminator byte).  Read mode: read the 4-byte length, `val.resize(len,
char(0))`, then read `len` bytes into the storage. -/
def FileArchive.serializeString (a : FileArchive) (val : List Nat) :
    FileArchive × List Nat :=
  if ¬a.IsStreamValid then (a, val)
  else if a.IsWrite then
    let len := (val.length + 1) % 4294967296
    let s1 := (a.stream.writeBytes (toBytes32 len)).writeBytes ((val ++ [0]).take len)
    ({ a with stream := s1 }, val)
  else
    match a.stream.readBytes 4 with
    | (s1, none) => ({ a with stream := s1 }, val)
    | (s1, some lb) =>
      let len := fromBytes32 lb
      let resized := val.take len ++ List.replicate (len - val.length) 0
      match s1.readBytes len with
      | (s2, some bs) => ({ a with stream := s2 }, bs)
      | (s2, none) => ({ a with stream := s2 }, resized)

/-- `FileArchive::SerializeBuffer(data, bytes)`.  Write mode: the 4-byte
image of `bytes` then `bytes` raw bytes of `data`.  Read mode: read the
4-byte count `read_bytes`, `assert(read_bytes == bytes)` — modelled as
`none` (process abort) when the two 32-bit images differ — then read
`bytes` raw bytes into `data`. -/
def FileArchive.serializeBuffer (a : FileArchive) (data : List Nat)
    (bytes : Nat) : Option (FileArchive × List Nat) :=
  if ¬a.IsStreamValid then some (a, data)
  else if a.IsWrite then
    let s1 := (a.stream.writeBytes (toBytes32 bytes)).writeBytes (data.take bytes)
    some ({ a with stream := s1 }, data)
  else
    match a.stream.readBytes 4 with
    | (s1, none) => some ({ a with stream := s1 }, data)
    | (s1, some lb) =>
      if fromBytes32 lb = bytes % 4294967296 then
        match s1.readBytes bytes with
        | (s2, some bs) =>
          some ({ a with stream := s2 }, bs ++ data.drop bytes)
        | (s2, none) => some ({ a with stream := s2 }, data)
      else
        none

/-- Little-endian `sz`-byte memory image of a plain-numeric element whose
value (bit pattern) is `v`.  `sizeof(T) = sz`. -/
def encElem : Nat → Nat → List Nat
  | 0, _ => []
  | sz + 1, v => v % 256 :: encElem sz (v / 256)

/-- Recompose an element value from its little-endian byte image. -/
def decElem (bs : List Nat) : Nat :=
  bs.foldr (fun b acc => b + 256 * acc) 0

/-- Split a byte list into consecutive `sz`-byte chunks (the element
images laid out in the vector's backing memory). -/
def chunks (sz : Nat) (l : List Nat) : List (List Nat) :=
  if h : sz = 0 then []
  else if hl : l = [] then []
  else
    l.take sz :: chunks sz (l.drop sz)
termination_by l.length
decreasing_by
  simp only [List.length_drop]
  have : 0 < l.length := List.length_pos.mpr hl
  omega

/-- `Archive::operator<<(std::vector<T>&)` for `BasicType T` with
`sizeof(T) = sz` (the bulk fast path).  Write: `unsigned int size =
val.size()` is written, then `SerializeBuffer(val.data(), val.size() *
sizeof(T))` hands the backing memory to the buffer codec.  Read: the
count is read, `val.resize(size)` (new elements value-initialized to 0),
then `SerializeBuffer` fills the backing memory.  Elements are
represented by their `sz`-byte images as `Nat`s. -/
def FileArchive.serializeVecBasic (sz : Nat) (a : FileArchive)
    (val : List Nat) : Option (FileArchive × List Nat) :=
  if a.IsWrite then
    let step1 := a.serializeUInt (val.length % 4294967296)
    match step1.1.serializeBuffer (val.flatMap (encElem sz)) (val.length * sz) with
    | some (a2, _) => some (a2, val)
    | none => none
  else
    let step1 := a.serializeUInt 0
    let size := step1.2
    let resized := val.take size ++ List.replicate (size - val.length) 0
    match step1.1.serializeBuffer (resized.flatMap (encElem sz)) (size * sz) with
    | some (a2, bs) => some (a2, (chunks sz bs).map decElem)
    | none => none

/-- The per-element loop `for(idx = 0; idx < size; ++idx) *this <<
val[idx];` threading the archive through each element in index order. -/
def serializeEach {α : Type} (ser : FileArchive → α → FileArchive × α) :
    FileArchive → List α → FileArchive × List α
  | a, [] => (a, [])
  | a, x :: xs =>
    let hd := ser a x
    let tl := serializeEach ser hd.1 xs
    (tl.1, hd.2 :: tl.2)

/-- `Archive::operator<<(std::vector<T>&)` for composite `T` (the
element-by-element path), generic over the element serializer `ser` and
the element's default constructor `dflt`.  Write: `unsigned int size =
val.size()` is written, then each `val[idx]` for `idx < size` is
serialized through the same archive.  Read: the count is read,
`val.resize(size)` (new elements default-constructed), then each element
is deserialized in the same index order. -/
def FileArchive.serializeVecComp {α : Type}
    (ser : FileArchive → α → FileArchive × α) (dflt : α)
    (a : FileArchive) (val : List α) : FileArchive × List α :=
  if a.IsWrite then
    let size := val.length % 4294967296
    let step1 := a.serializeUInt size
    let looped := serializeEach ser step1.1 (val.take size)
    (looped.1, looped.2 ++ val.drop size)
  else
    let step1 := a.serializeUInt 0
    let size := step1.2
    let resized := val.take size ++ List.replicate (size - val.length) dflt
    serializeEach ser step1.1 resized

/-! ### Destruction of a `FileArchive`

`FileArchive::~FileArchive` runs `if (!IsStreamValid()) file_->close();`
and then (implicitly, as part of member destruction) destroys the
`std::unique_ptr<std::fstream>`, whose `~fstream` closes the file if and
only if it is still open.  We track the handle state and the number of
times an (effective) close of the open file happens. -/

/-- Observable state of the owned stream handle at destruction time:
`isOpen` — the file was opened and not yet closed; `good` — the stream's
error state is clear (`IsStreamValid()`); `closeCount` — how many times
the open file has been closed so far. -/
structure StreamHandle where
  isOpen : Bool
  good : Bool
  closeCount : Nat
deriving DecidableEq, Repr

/-- `std::fstream::close()`: closes the file when open; on a non-open
stream it only sets failbit. -/
def StreamHandle.close (s : StreamHandle) : StreamHandle :=
  if s.isOpen then
    { isOpen := false, good := s.good, closeCount := s.closeCount + 1 }
  else
    { s with good := false }

/-- `std::fstream::~fstream` (run when the `unique_ptr` member is
destroyed): closes the file if it is still open, otherwise does
nothing. -/
def StreamHandle.fstreamDestroy (s : StreamHandle) : StreamHandle :=
  if s.isOpen then s.close else s

/-- `FileArchive::~FileArchive`: the explicit body closes the stream only
when `IsStreamValid()` is false, after which member destruction destroys
the `fstream` (closing the file if still open). -/
def fileArchiveDestruct (s : StreamHandle) : StreamHandle :=
  let s1 := if ¬s.good then s.close else s
  s1.fstreamDestroy

/-! ### Static classification of vector element types

`template<typename T> concept BasicType = std::integral<T> ||
std::floating_point<T>;` selects between the two
`Archive::operator<<(std::vector<T>&)` overloads at compile time. -/

/-- The C++ types a vector element can have in this framework. -/
inductive CppType where
  | tBool | tChar | tSChar | tUChar | tShort | tUShort
  | tInt | tUInt | tLong | tULong | tLongLong | tULongLong
  | tFloat | tDouble | tLongDouble
  | tString
  | tVector (elem : CppType)
  | tUserObject (id : Nat)
deriving DecidableEq, Repr

/-- `std::integral<T>`. -/
def CppType.isIntegral : CppType → Bool
  | tBool | tChar | tSChar | tUChar | tShort | tUShort
  | tInt | tUInt | tLong | tULong | tLongLong | tULongLong => true
  | _ => false

/-- `std::floating_point<T>`. -/
def CppType.isFloatingPoint : CppType → Bool
  | tFloat | tDouble | tLongDouble => true
  | _ => false

/-- The concept `BasicType` from the source. -/
def BasicType (t : CppType) : Bool :=
  t.isIntegral || t.isFloatingPoint

/-- Overload resolution for `Archive::operator<<(std::vector<T>&)`: the
constrained template (bulk `SerializeBuffer` fast path) is chosen exactly
when `T` satisfies `BasicType`; otherwise the unconstrained element-by-
element template is chosen.  Resolved statically per instantiation. -/
def vectorUsesBulkPath (t : CppType) : Bool :=
  BasicType t

/-! ### Orchestration and the demo object `Foo` -/

/-- `Archive::SerializeToFile`: opens a `FileArchive` in Write mode on
`path` and invokes the object's `Serialize` callback once.  Returns the
bytes written to the file and the final object (or `none` on abort).
`openOk` records whether the stream opened successfully. -/
def SerializeToFile {σ : Type}
    (ser : FileArchive → σ → Option (FileArchive × σ))
    (obj : σ) (path : String) (openOk : Bool) :
    Option (List Nat × σ) :=
  (ser (mkFileArchive path Mode.Write openOk []) obj).map
    (fun r => (r.1.stream.out, r.2))

/-- `Archive::SerializeFromFile`: opens a `FileArchive` in Read mode on
`path` (whose content is `content`) and invokes the object's `Serialize`
callback once; returns the populated object (or `none` on abort). -/
def SerializeFromFile {σ : Type}
    (ser : FileArchive → σ → Option (FileArchive × σ))
    (obj : σ) (path : String) (openOk : Bool) (content : List Nat) :
    Option σ :=
  (ser (mkFileArchive path Mode.Read openOk content) obj).map
    (fun r => r.2)

/-- The demo object `Foo`: `int integer; std::string str;
std::vector<int> vector; std::vector<std::string> vector_str;`.
`integer` and the `vector` elements are 32-bit images; the strings are
byte lists. -/
structure Foo where
  integer : Nat
  str : List Nat
  vector : List Nat
  vector_str : List (List Nat)
deriving DecidableEq, Repr

/-- A default-constructed `Foo` (all fields empty / zero). -/
def defaultFoo : Foo :=
  { integer := 0, str := [], vector := [], vector_str := [] }

/-- `Foo::Serialize(Archive&)`: `arch << integer; arch << str; arch <<
vector; arch << vector_str;`.  `sizeof(int) = 4`; `vector_str` takes the
composite path with `std::string` elements (default-constructed to
empty). -/
def Foo.Serialize (a : FileArchive) (f : Foo) : Option (FileArchive × Foo) :=
  let st1 := a.serializeInt f.integer
  let st2 := st1.1.serializeString f.str
  match st2.1.serializeVecBasic 4 f.vector with
  | none => none
  | some (a3, v3) =>
    let st4 := a3.serializeVecComp
      (fun ar s => ar.serializeString s) [] f.vector_str
    some (st4.1, { integer := st1.2, str := st2.2, vector := v3, vector_str := st4.2 })

/-! ### Wire-format descriptions (derived from the write paths) -/

/-- Bytes emitted for a `std::string` whose character count (plus the
terminator) fits a 32-bit `int`. -/
def stringWire (s : List Nat) : List Nat :=
  toBytes32 (s.length + 1) ++ s ++ [0]

/-- Bytes emitted by the bulk fast path for a plain-numeric vector. -/
def vecBasicWire (sz : Nat) (val : List Nat) : List Nat :=
  toBytes32 val.length ++ toBytes32 (val.length * sz) ++ val.flatMap (encElem sz)

/-- Bytes emitted by the composite path for a `std::vector<std::string>`. -/
def vecStrWire (val : List (List Nat)) : List Nat :=
  toBytes32 val.length ++ (val.map stringWire).flatten

/-! ### Stream-level lemmas -/

@[simp] theorem writeBytes_valid (s : FStream) (bs : List Nat) :
    (s.writeBytes bs).valid = s.valid := rfl

@[simp] theorem writeBytes_inp (s : FStream) (bs : List Nat) :
    (s.writeBytes bs).inp = s.inp := rfl

@[simp] theorem writeBytes_out (s : FStream) (bs : List Nat) :
    (s.writeBytes bs).out = s.out ++ bs := rfl

theorem writeBytes_writeBytes (s : FStream) (bs cs : List Nat) :
    (s.writeBytes bs).writeBytes cs = s.writeBytes (bs ++ cs) := by
  simp [FStream.writeBytes]

theorem readBytes_exact (s : FStream) (pre rest : List Nat)
    (h : s.inp = pre ++ rest) :
    s.readBytes pre.length = ({ s with inp := rest }, some pre) := by
  unfold FStream.readBytes
  rw [h]
  rw [if_pos (by simp)]
  simp [List.take_left, List.drop_left]

/-! ### Scalar operation lemmas -/

theorem serializeInt_write (a : FileArchive) (v : Nat)
    (hm : a.mode = Mode.Write) (hv : a.stream.valid = true) :
    a.serializeInt v
      = ({ a with stream := a.stream.writeBytes (toBytes32 v) }, v) := by
  simp [FileArchive.serializeInt, FileArchive.IsStreamValid,
    FileArchive.IsWrite, hm, hv]

theorem serializeUInt_write (a : FileArchive) (v : Nat)
    (hm : a.mode = Mode.Write) (hv : a.stream.valid = true) :
    a.serializeUInt v
      = ({ a with stream := a.stream.writeBytes (toBytes32 v) }, v) := by
  simp [FileArchive.serializeUInt, FileArchive.IsStreamValid,
    FileArchive.IsWrite, hm, hv]

theorem serializeInt_read (a : FileArchive) (v w : Nat) (rest : List Nat)
    (hm : a.mode = Mode.Read) (hv : a.stream.valid = true)
    (hi : a.stream.inp = toBytes32 w ++ rest) :
    a.serializeInt v
      = ({ a with stream := { a.stream with inp := rest } }, w % 4294967296) := by
  have hr := readBytes_exact a.stream (toBytes32 w) rest hi
  rw [toBytes32_length] at hr
  simp [FileArchive.serializeInt, FileArchive.IsStreamValid,
    FileArchive.IsWrite, hm, hv, hr, fromBytes32_toBytes32]

theorem serializeUInt_read (a : FileArchive) (v w : Nat) (rest : List Nat)
    (hm : a.mode = Mode.Read) (hv : a.stream.valid = true)
    (hi : a.stream.inp = toBytes32 w ++ rest) :
    a.serializeUInt v
      = ({ a with stream := { a.stream with inp := rest } }, w % 4294967296) := by
  have hr := readBytes_exact a.stream (toBytes32 w) rest hi
  rw [toBytes32_length] at hr
  simp [FileArchive.serializeUInt, FileArchive.IsStreamValid,
    FileArchive.IsWrite, hm, hv, hr, fromBytes32_toBytes32]

theorem serializeString_write (a : FileArchive) (s : List Nat)
    (hm : a.mode = Mode.Write) (hv : a.stream.valid = true)
    (hlen : s.length + 1 < 4294967296) :
    a.serializeString s
      = ({ a with stream := a.stream.writeBytes (stringWire s) }, s) := by
  have hmod : (s.length + 1) % 4294967296 = s.length + 1 := Nat.mod_eq_of_lt hlen
  have htake : (s ++ [0]).take (s.length + 1) = s ++ [0] :=
    List.take_of_length_le (by simp)
  simp [FileArchive.serializeString, FileArchive.IsStreamValid,
    FileArchive.IsWrite, hm, hv, hmod, htake, writeBytes_writeBytes,
    stringWire, List.append_assoc]

theorem serializeString_read (a : FileArchive) (v : List Nat)
    (s rest : List Nat)
    (hm : a.mode = Mode.Read) (hv : a.stream.valid = true)
    (hi : a.stream.inp = stringWire s ++ rest)
    (hlen : s.length + 1 < 4294967296) :
    a.serializeString v
      = ({ a with stream := { a.stream with inp := rest } }, s ++ [0]) := by
  have hi2 : a.stream.inp = toBytes32 (s.length + 1) ++ ((s ++ [0]) ++ rest) := by
    rw [hi]; simp [stringWire]
  have hr := readBytes_exact a.stream (toBytes32 (s.length + 1)) ((s ++ [0]) ++ rest) hi2
  rw [toBytes32_length] at hr
  have hmod : (s.length + 1) % 4294967296 = s.length + 1 := Nat.mod_eq_of_lt hlen
  have hr2 := readBytes_exact
    { valid := true, out := a.stream.out, inp := s ++ 0 :: rest }
    (s ++ [0]) rest (by simp)
  simp only [List.length_append, List.length_cons, List.length_nil,
    Nat.zero_add] at hr2
  simp [FileArchive.serializeString, FileArchive.IsStreamValid,
    FileArchive.IsWrite, hm, hv, hr, fromBytes32_toBytes32, hmod, hr2]

/-! ### Buffer operation lemmas -/

theorem serializeBuffer_write (a : FileArchive) (data : List Nat) (bytes : Nat)
    (hm : a.mode = Mode.Write) (hv : a.stream.valid = true) :
    a.serializeBuffer data bytes
      = some ({ a with stream :=
          a.stream.writeBytes (toBytes32 bytes ++ data.take bytes) }, data) := by
  simp [FileArchive.serializeBuffer, FileArchive.IsStreamValid,
    FileArchive.IsWrite, hm, hv, writeBytes_writeBytes]

theorem serializeBuffer_read (a : FileArchive) (data db rest : List Nat)
    (bytes : Nat)
    (hm : a.mode = Mode.Read) (hv : a.stream.valid = true)
    (hi : a.stream.inp = toBytes32 bytes ++ (db ++ rest))
    (hdb : db.length = bytes) :
    a.serializeBuffer data bytes
      = some ({ a with stream := { a.stream with inp := rest } },
          db ++ data.drop bytes) := by
  have hr := readBytes_exact a.stream (toBytes32 bytes) (db ++ rest) hi
  rw [toBytes32_length] at hr
  have hr2 := readBytes_exact
    { valid := true, out := a.stream.out, inp := db ++ rest } db rest rfl
  rw [hdb] at hr2
  simp [FileArchive.serializeBuffer, FileArchive.IsStreamValid,
    FileArchive.IsWrite, hm, hv, hr, fromBytes32_toBytes32, hr2]

/-! ### Element image lemmas -/

@[simp] theorem encElem_length (sz v : Nat) : (encElem sz v).length = sz := by
  induction sz generalizing v with
  | zero => rfl
  | succ n ih => simp [encElem, ih]

theorem decElem_encElem (sz v : Nat) (h : v < 256 ^ sz) :
    decElem (encElem sz v) = v := by
  induction sz generalizing v with
  | zero =>
    simp [Nat.pow_zero] at h
    simp [encElem, decElem, h]
  | succ n ih =>
    have hdiv : v / 256 < 256 ^ n := by
      rw [Nat.div_lt_iff_lt_mul (by norm_num)]
      calc v < 256 ^ (n + 1) := h
        _ = 256 ^ n * 256 := by ring
    simp only [encElem, decElem, List.foldr_cons]
    have : decElem (encElem n (v / 256)) = v / 256 := ih (v / 256) hdiv
    simp only [decElem] at this
    rw [this]
    omega

theorem flatMap_encElem_length (sz : Nat) (l : List Nat) :
    (l.flatMap (encElem sz)).length = l.length * sz := by
  induction l with
  | nil => simp
  | cons x xs ih => simp [List.flatMap_cons, ih]; ring

theorem chunks_nil (sz : Nat) : chunks sz [] = [] := by
  unfold chunks
  by_cases h : sz = 0 <;> simp [h]

theorem chunks_flatMap (sz : Nat) (hsz : 0 < sz) (l : List Nat) :
    chunks sz (l.flatMap (encElem sz)) = l.map (encElem sz) := by
  induction l with
  | nil => simp [chunks_nil]
  | cons x xs ih =>
    rw [List.flatMap_cons]
    have hlen : (encElem sz x).length = sz := encElem_length sz x
    have hne : encElem sz x ++ xs.flatMap (encElem sz) ≠ [] := by
      intro hc
      have := congrArg List.length hc
      simp [hlen] at this
      omega
    rw [chunks]
    rw [dif_neg (by omega)]
    rw [dif_neg hne]
    have htake : (encElem sz x ++ xs.flatMap (encElem sz)).take sz
        = encElem sz x := by
      have h0 := List.take_left (encElem sz x) (xs.flatMap (encElem sz))
      rwa [hlen] at h0
    have hdrop : (encElem sz x ++ xs.flatMap (encElem sz)).drop sz
        = xs.flatMap (encElem sz) := by
      have h0 := List.drop_left (encElem sz x) (xs.flatMap (encElem sz))
      rwa [hlen] at h0
    rw [htake, hdrop, ih]
    rfl

/-! ### Concrete-form corollaries of the operation lemmas

Archives produced by `mkFileArchive` and threaded through the operations
always have the literal shape `⟨mode, p, ⟨true, o, i⟩⟩`; these corollaries
keep every intermediate state in that shape so proofs compose by plain
rewriting. -/

theorem serializeInt_write_c (p : String) (o i : List Nat) (v : Nat) :
    FileArchive.serializeInt ⟨Mode.Write, p, ⟨true, o, i⟩⟩ v
      = (⟨Mode.Write, p, ⟨true, o ++ toBytes32 v, i⟩⟩, v) := by
  have h := serializeInt_write ⟨Mode.Write, p, ⟨true, o, i⟩⟩ v rfl rfl
  simpa [FStream.writeBytes] using h

theorem serializeUInt_write_c (p : String) (o i : List Nat) (v : Nat) :
    FileArchive.serializeUInt ⟨Mode.Write, p, ⟨true, o, i⟩⟩ v
      = (⟨Mode.Write, p, ⟨true, o ++ toBytes32 v, i⟩⟩, v) := by
  have h := serializeUInt_write ⟨Mode.Write, p, ⟨true, o, i⟩⟩ v rfl rfl
  simpa [FStream.writeBytes] using h

theorem serializeInt_read_c (p : String) (o : List Nat) (v w : Nat)
    (rest : List Nat) :
    FileArchive.serializeInt ⟨Mode.Read, p, ⟨true, o, toBytes32 w ++ rest⟩⟩ v
      = (⟨Mode.Read, p, ⟨true, o, rest⟩⟩, w % 4294967296) := by
  have h := serializeInt_read ⟨Mode.Read, p, ⟨true, o, toBytes32 w ++ rest⟩⟩
    v w rest rfl rfl rfl
  simpa using h

theorem serializeUInt_read_c (p : String) (o : List Nat) (v w : Nat)
    (rest : List Nat) :
    FileArchive.serializeUInt ⟨Mode.Read, p, ⟨true, o, toBytes32 w ++ rest⟩⟩ v
      = (⟨Mode.Read, p, ⟨true, o, rest⟩⟩, w % 4294967296) := by
  have h := serializeUInt_read ⟨Mode.Read, p, ⟨true, o, toBytes32 w ++ rest⟩⟩
    v w rest rfl rfl rfl
  simpa using h

theorem serializeString_write_c (p : String) (o i s : List Nat)
    (hlen : s.length + 1 < 4294967296) :
    FileArchive.serializeString ⟨Mode.Write, p, ⟨true, o, i⟩⟩ s
      = (⟨Mode.Write, p, ⟨true, o ++ stringWire s, i⟩⟩, s) := by
  have h := serializeString_write ⟨Mode.Write, p, ⟨true, o, i⟩⟩ s rfl rfl hlen
  simpa [FStream.writeBytes] using h

theorem serializeString_read_c (p : String) (o v s rest : List Nat)
    (hlen : s.length + 1 < 4294967296) :
    FileArchive.serializeString ⟨Mode.Read, p, ⟨true, o, stringWire s ++ rest⟩⟩ v
      = (⟨Mode.Read, p, ⟨true, o, rest⟩⟩, s ++ [0]) := by
  have h := serializeString_read ⟨Mode.Read, p, ⟨true, o, stringWire s ++ rest⟩⟩
    v s rest rfl rfl rfl hlen
  simpa using h

theorem serializeBuffer_write_c (p : String) (o i data : List Nat)
    (bytes : Nat) :
    FileArchive.serializeBuffer ⟨Mode.Write, p, ⟨true, o, i⟩⟩ data bytes
      = some (⟨Mode.Write, p,
          ⟨true, o ++ (toBytes32 bytes ++ data.take bytes), i⟩⟩, data) := by
  have h := serializeBuffer_write ⟨Mode.Write, p, ⟨true, o, i⟩⟩ data bytes rfl rfl
  simpa [FStream.writeBytes] using h

theorem serializeBuffer_read_c (p : String) (o data db rest : List Nat)
    (bytes : Nat) (hdb : db.length = bytes) :
    FileArchive.serializeBuffer
        ⟨Mode.Read, p, ⟨true, o, toBytes32 bytes ++ (db ++ rest)⟩⟩ data bytes
      = some (⟨Mode.Read, p, ⟨true, o, rest⟩⟩, db ++ data.drop bytes) := by
  have h := serializeBuffer_read
    ⟨Mode.Read, p, ⟨true, o, toBytes32 bytes ++ (db ++ rest)⟩⟩
    data db rest bytes rfl rfl rfl hdb
  simpa using h

/-! ### Plain-numeric vector lemmas -/

theorem serializeVecBasic_write_c (sz : Nat) (p : String) (o i val : List Nat)
    (hlen : val.length < 4294967296) :
    FileArchive.serializeVecBasic sz ⟨Mode.Write, p, ⟨true, o, i⟩⟩ val
      = some (⟨Mode.Write, p, ⟨true, o ++ vecBasicWire sz val, i⟩⟩, val) := by
  have hmod : val.length % 4294967296 = val.length := Nat.mod_eq_of_lt hlen
  have h1 := serializeUInt_write_c p o i (val.length % 4294967296)
  have h2 := serializeBuffer_write_c p (o ++ toBytes32 (val.length % 4294967296))
    i (val.flatMap (encElem sz)) (val.length * sz)
  have htake : (val.flatMap (encElem sz)).take (val.length * sz)
      = val.flatMap (encElem sz) :=
    List.take_of_length_le (by rw [flatMap_encElem_length])
  simp only [FileArchive.serializeVecBasic, FileArchive.IsWrite, h1, h2]
  simp [vecBasicWire, hmod, htake, List.append_assoc]

theorem serializeVecBasic_read_raw (sz : Nat) (p : String)
    (o v0 val rest : List Nat)
    (hlen : val.length < 4294967296) :
    FileArchive.serializeVecBasic sz
        ⟨Mode.Read, p, ⟨true, o, vecBasicWire sz val ++ rest⟩⟩ v0
      = some (⟨Mode.Read, p, ⟨true, o, rest⟩⟩,
          (chunks sz (val.flatMap (encElem sz))).map decElem) := by
  have hmod : val.length % 4294967296 = val.length := Nat.mod_eq_of_lt hlen
  have hinp : vecBasicWire sz val ++ rest
      = toBytes32 val.length
        ++ (toBytes32 (val.length * sz) ++ (val.flatMap (encElem sz) ++ rest)) := by
    simp [vecBasicWire, List.append_assoc]
  have h1 := serializeUInt_read_c p o 0 val.length
    (toBytes32 (val.length * sz) ++ (val.flatMap (encElem sz) ++ rest))
  have hreslen : (v0.take (val.length) ++ List.replicate (val.length - v0.length) 0).length
      = val.length := by
    simp only [List.length_append, List.length_take, List.length_replicate]
    omega
  have h2 := serializeBuffer_read_c p o
    ((v0.take (val.length) ++ List.replicate (val.length - v0.length) 0).flatMap (encElem sz))
    (val.flatMap (encElem sz)) rest (val.length * sz)
    (by rw [flatMap_encElem_length])
  have hdrop : ((v0.take (val.length)
      ++ List.replicate (val.length - v0.length) 0).flatMap (encElem sz)).drop
        (val.length * sz) = [] := by
    apply List.drop_eq_nil_of_le
    rw [flatMap_encElem_length, hreslen]
  rw [hdrop, List.append_nil] at h2
  rw [hinp]
  simp only [FileArchive.serializeVecBasic, FileArchive.IsWrite, h1, hmod, h2]
  simp

theorem serializeVecBasic_read_c (sz : Nat) (p : String)
    (o v0 val rest : List Nat)
    (hsz : 0 < sz) (hlen : val.length < 4294967296)
    (helem : ∀ x ∈ val, x < 256 ^ sz) :
    FileArchive.serializeVecBasic sz
        ⟨Mode.Read, p, ⟨true, o, vecBasicWire sz val ++ rest⟩⟩ v0
      = some (⟨Mode.Read, p, ⟨true, o, rest⟩⟩, val) := by
  rw [serializeVecBasic_read_raw sz p o v0 val rest hlen]
  rw [chunks_flatMap sz hsz val, List.map_map]
  have hmap : val.map (decElem ∘ encElem sz) = val := by
    calc val.map (decElem ∘ encElem sz)
        = val.map id := by
          apply List.map_congr_left
          intro x hx
          exact decElem_encElem sz x (helem x hx)
      _ = val := List.map_id val
  rw [hmap]

/-! ### Composite vector lemmas (instantiated at `std::string` elements) -/

theorem serializeEach_str_write (p : String) (val : List (List Nat))
    (o i : List Nat)
    (hs : ∀ s ∈ val, s.length + 1 < 4294967296) :
    serializeEach (fun ar s => ar.serializeString s)
        ⟨Mode.Write, p, ⟨true, o, i⟩⟩ val
      = (⟨Mode.Write, p, ⟨true, o ++ (val.map stringWire).flatten, i⟩⟩, val) := by
  induction val generalizing o with
  | nil => simp [serializeEach]
  | cons x xs ih =>
    have hx := serializeString_write_c p o i x (hs x (by simp))
    have hxs := ih (o ++ stringWire x) (fun s hsm => hs s (by simp [hsm]))
    simp only [serializeEach, hx, hxs]
    simp [List.append_assoc]

theorem serializeEach_str_read (p : String) (val init : List (List Nat))
    (o rest : List Nat)
    (hs : ∀ s ∈ val, s.length + 1 < 4294967296)
    (hinit : init.length = val.length) :
    serializeEach (fun ar s => ar.serializeString s)
        ⟨Mode.Read, p, ⟨true, o, (val.map stringWire).flatten ++ rest⟩⟩ init
      = (⟨Mode.Read, p, ⟨true, o, rest⟩⟩, val.map (fun s => s ++ [0])) := by
  induction val generalizing init with
  | nil =>
    have : init = [] := List.eq_nil_of_length_eq_zero hinit
    subst this
    simp [serializeEach]
  | cons x xs ih =>
    match init with
    | [] => simp at hinit
    | y :: ys =>
      have hys : ys.length = xs.length := by
        simpa using hinit
      have hflat : ((x :: xs).map stringWire).flatten ++ rest
          = stringWire x ++ ((xs.map stringWire).flatten ++ rest) := by
        simp [List.append_assoc]
      have hx := serializeString_read_c p o y x
        ((xs.map stringWire).flatten ++ rest) (hs x (by simp))
      have hxs := ih ys (fun s hsm => hs s (by simp [hsm])) hys
      rw [hflat]
      simp only [serializeEach, hx, hxs]
      simp

theorem serializeVecComp_str_write (p : String) (val : List (List Nat))
    (o i : List Nat)
    (hlen : val.length < 4294967296)
    (hs : ∀ s ∈ val, s.length + 1 < 4294967296) :
    FileArchive.serializeVecComp (fun ar s => ar.serializeString s) []
        ⟨Mode.Write, p, ⟨true, o, i⟩⟩ val
      = (⟨Mode.Write, p, ⟨true, o ++ vecStrWire val, i⟩⟩, val) := by
  have hmod : val.length % 4294967296 = val.length := Nat.mod_eq_of_lt hlen
  have htake : val.take val.length = val := List.take_length val
  have h1 := serializeUInt_write_c p o i (val.length % 4294967296)
  have h2 := serializeEach_str_write p val (o ++ toBytes32 (val.length % 4294967296)) i hs
  rw [hmod] at h1 h2
  simp only [FileArchive.serializeVecComp, FileArchive.IsWrite, hmod, htake, h1, h2]
  simp [vecStrWire, List.append_assoc]

theorem serializeVecComp_str_read (p : String) (val v0 : List (List Nat))
    (o rest : List Nat)
    (hlen : val.length < 4294967296)
    (hs : ∀ s ∈ val, s.length + 1 < 4294967296) :
    FileArchive.serializeVecComp (fun ar s => ar.serializeString s) []
        ⟨Mode.Read, p, ⟨true, o, vecStrWire val ++ rest⟩⟩ v0
      = (⟨Mode.Read, p, ⟨true, o, rest⟩⟩, val.map (fun s => s ++ [0])) := by
  have hmod : val.length % 4294967296 = val.length := Nat.mod_eq_of_lt hlen
  have hinp : vecStrWire val ++ rest
      = toBytes32 val.length ++ ((val.map stringWire).flatten ++ rest) := by
    simp [vecStrWire, List.append_assoc]
  have h1 := serializeUInt_read_c p o 0 val.length
    ((val.map stringWire).flatten ++ rest)
  have hreslen : (v0.take val.length
      ++ List.replicate (val.length - v0.length) ([] : List Nat)).length
      = val.length := by
    simp only [List.length_append, List.length_take, List.length_replicate]
    omega
  have h2 := serializeEach_str_read p val
    (v0.take val.length ++ List.replicate (val.length - v0.length) []) o rest hs hreslen
  rw [hinp]
  simp only [FileArchive.serializeVecComp, FileArchive.IsWrite, h1, hmod, h2]
  simp

/-! ### Whole-object (Foo) composition -/

/-- The complete wire image of a `Foo`, field by field in the order fixed
by `Foo::Serialize`. -/
def fooWire (f : Foo) : List Nat :=
  toBytes32 f.integer ++ stringWire f.str ++ vecBasicWire 4 f.vector
    ++ vecStrWire f.vector_str

theorem fooSerialize_write (f : Foo) (p : String) (o i : List Nat)
    (hstr : f.str.length + 1 < 4294967296)
    (hv : f.vector.length < 4294967296)
    (hvs : f.vector_str.length < 4294967296)
    (hss : ∀ s ∈ f.vector_str, s.length + 1 < 4294967296) :
    Foo.Serialize ⟨Mode.Write, p, ⟨true, o, i⟩⟩ f
      = some (⟨Mode.Write, p, ⟨true, o ++ fooWire f, i⟩⟩, f) := by
  have h1 := serializeInt_write_c p o i f.integer
  have h2 := serializeString_write_c p (o ++ toBytes32 f.integer) i f.str hstr
  have h3 := serializeVecBasic_write_c 4 p
    (o ++ toBytes32 f.integer ++ stringWire f.str) i f.vector hv
  have h4 := serializeVecComp_str_write p f.vector_str
    (o ++ toBytes32 f.integer ++ stringWire f.str ++ vecBasicWire 4 f.vector) i hvs hss
  simp only [Foo.Serialize, h1, h2, h3, h4]
  simp [fooWire, List.append_assoc]

theorem fooSerialize_read (f g : Foo) (p : String) (o rest : List Nat)
    (hi : f.integer < 4294967296)
    (hstr : f.str.length + 1 < 4294967296)
    (hv : f.vector.length < 4294967296)
    (hvx : ∀ x ∈ f.vector, x < 4294967296)
    (hvs : f.vector_str.length < 4294967296)
    (hss : ∀ s ∈ f.vector_str, s.length + 1 < 4294967296) :
    Foo.Serialize ⟨Mode.Read, p, ⟨true, o, fooWire f ++ rest⟩⟩ g
      = some (⟨Mode.Read, p, ⟨true, o, rest⟩⟩,
          ⟨f.integer, f.str ++ [0], f.vector,
            f.vector_str.map (fun s => s ++ [0])⟩) := by
  have hinp : fooWire f ++ rest
      = toBytes32 f.integer ++ (stringWire f.str
          ++ (vecBasicWire 4 f.vector ++ (vecStrWire f.vector_str ++ rest))) := by
    simp [fooWire, List.append_assoc]
  have h1 := serializeInt_read_c p o g.integer f.integer
    (stringWire f.str ++ (vecBasicWire 4 f.vector ++ (vecStrWire f.vector_str ++ rest)))
  rw [Nat.mod_eq_of_lt hi] at h1
  have h2 := serializeString_read_c p o g.str f.str
    (vecBasicWire 4 f.vector ++ (vecStrWire f.vector_str ++ rest)) hstr
  have h3 := serializeVecBasic_read_c 4 p o g.vector f.vector
    (vecStrWire f.vector_str ++ rest) (by norm_num) hv
    (by intro x hx; have := hvx x hx; norm_num; omega)
  have h4 := serializeVecComp_str_read p f.vector_str g.vector_str o rest hvs hss
  rw [hinp]
  simp only [Foo.Serialize, h1, h2, h3, h4]

/-! ## The claims -/

/-- C1: for every signed or unsigned 32-bit integer (represented by its
32-bit image `v`), writing `v` through a `FileArchive` in Write mode and
then reading the resulting bytes into a fresh variable (arbitrary initial
image `w0`) through a `FileArchive` in Read mode yields exactly `v`,
bit-identically, for both the `int` and the `unsigned int` operation. -/
theorem scalar_roundtrip (p q : String) (v w0 : Nat) (hv : v < 4294967296) :
    (FileArchive.serializeInt (mkFileArchive q Mode.Read true
        (FileArchive.serializeInt (mkFileArchive p Mode.Write true []) v).1.stream.out)
        w0).2 = v
    ∧ (FileArchive.serializeUInt (mkFileArchive q Mode.Read true
        (FileArchive.serializeUInt (mkFileArchive p Mode.Write true []) v).1.stream.out)
        w0).2 = v := by
  have hwI := serializeInt_write_c p [] [] v
  have hwU := serializeUInt_write_c p [] [] v
  have hrI := serializeInt_read_c q [] w0 v []
  have hrU := serializeUInt_read_c q [] w0 v []
  simp only [List.append_nil] at hrI hrU
  constructor
  · simp only [mkFileArchive, hwI]
    simp only [List.nil_append]
    simp only [hrI]
    exact Nat.mod_eq_of_lt hv
  · simp only [mkFileArchive, hwU]
    simp only [List.nil_append]
    simp only [hrU]
    exact Nat.mod_eq_of_lt hv

/-- Witness for C1 at `v = 3735928559`. -/
theorem scalar_roundtrip_witness :
    3735928559 < 4294967296
    ∧ ((FileArchive.serializeInt (mkFileArchive "b" Mode.Read true
          (FileArchive.serializeInt (mkFileArchive "a" Mode.Write true [])
            3735928559).1.stream.out) 0).2 = 3735928559
      ∧ (FileArchive.serializeUInt (mkFileArchive "b" Mode.Read true
          (FileArchive.serializeUInt (mkFileArchive "a" Mode.Write true [])
            3735928559).1.stream.out) 0).2 = 3735928559) :=
  ⟨by decide, scalar_roundtrip "a" "b" 3735928559 0 (by decide)⟩

/-- C2: writing the text `"Hello"` (bytes 72,101,108,108,111) produces a
4-byte length field containing 6 followed by the 6 bytes
`'H','e','l','l','o',0`; reading that encoding back into a fresh string
yields a value of length 6: the 5 original characters plus the terminator
byte, not stripped. -/
theorem text_encoding_hello :
    (FileArchive.serializeString (mkFileArchive "a" Mode.Write true [])
        [72, 101, 108, 108, 111]).1.stream.out
      = toBytes32 6 ++ [72, 101, 108, 108, 111, 0]
    ∧ (FileArchive.serializeString (mkFileArchive "b" Mode.Read true
        (toBytes32 6 ++ [72, 101, 108, 108, 111, 0])) []).2
      = [72, 101, 108, 108, 111, 0]
    ∧ (FileArchive.serializeString (mkFileArchive "b" Mode.Read true
        (toBytes32 6 ++ [72, 101, 108, 108, 111, 0])) []).2.length = 6 := by
  decide

/-- C3: for every plain-numeric element width `sz` and vector `val` of
element images, writing the vector and reading it back into a fresh
vector yields a vector equal in length and element values, in the
original order. -/
theorem vector_roundtrip (p q : String) (sz : Nat) (val : List Nat)
    (hsz : 0 < sz) (hlen : val.length < 4294967296)
    (helem : ∀ x ∈ val, x < 256 ^ sz) :
    ∃ aw : FileArchive,
      FileArchive.serializeVecBasic sz (mkFileArchive p Mode.Write true []) val
        = some (aw, val)
      ∧ (FileArchive.serializeVecBasic sz
          (mkFileArchive q Mode.Read true aw.stream.out) []).map Prod.snd
        = some val := by
  refine ⟨⟨Mode.Write, p, ⟨true, vecBasicWire sz val, []⟩⟩, ?_, ?_⟩
  · have h := serializeVecBasic_write_c sz p [] [] val hlen
    simpa [mkFileArchive] using h
  · have h := serializeVecBasic_read_c sz q [] [] val [] hsz hlen helem
    simp only [List.append_nil] at h
    simp [mkFileArchive, h]

/-- Witness for C3 at `sz = 4`, `val = [1, 2, 3]`. -/
theorem vector_roundtrip_witness :
    (0 < 4 ∧ ([1, 2, 3] : List Nat).length < 4294967296
      ∧ ∀ x ∈ ([1, 2, 3] : List Nat), x < 256 ^ 4)
    ∧ ∃ aw : FileArchive,
      FileArchive.serializeVecBasic 4 (mkFileArchive "a" Mode.Write true []) [1, 2, 3]
        = some (aw, [1, 2, 3])
      ∧ (FileArchive.serializeVecBasic 4
          (mkFileArchive "b" Mode.Read true aw.stream.out) []).map Prod.snd
        = some [1, 2, 3] :=
  ⟨⟨by decide, by decide, by decide⟩,
    vector_roundtrip "a" "b" 4 [1, 2, 3] (by decide) (by decide) (by decide)⟩

/-- C4: the composite container path (instantiated at `std::string`
elements, the composite element type the repository uses): in Write mode
it writes the element count and then each element's serialization in
index order through the same archive — the output is exactly the count
followed by the concatenation of the per-element encodings; in Read mode
it reads the count, resizes the destination to that count, and
deserializes each element individually in the same index order. -/
theorem composite_vector_paths (p q : String) (val : List (List Nat))
    (hlen : val.length < 4294967296)
    (hs : ∀ s ∈ val, s.length + 1 < 4294967296) :
    (FileArchive.serializeVecComp (fun ar s => ar.serializeString s) []
        (mkFileArchive p Mode.Write true []) val).1.stream.out
      = toBytes32 val.length ++ (val.map stringWire).flatten
    ∧ (FileArchive.serializeVecComp (fun ar s => ar.serializeString s) []
        (mkFileArchive q Mode.Read true
          (toBytes32 val.length ++ (val.map stringWire).flatten)) []).2
      = val.map (fun s => s ++ [0]) := by
  constructor
  · have h := serializeVecComp_str_write p val [] [] hlen hs
    simp [mkFileArchive, h, vecStrWire]
  · have h := serializeVecComp_str_read q val [] [] [] hlen hs
    simp only [List.append_nil] at h
    simp [mkFileArchive, vecStrWire] at h
    simp [mkFileArchive, h]

/-- Witness for C4 at `val = [[97], [98, 99]]`. -/
theorem composite_vector_paths_witness :
    (([[97], [98, 99]] : List (List Nat)).length < 4294967296
      ∧ ∀ s ∈ ([[97], [98, 99]] : List (List Nat)), s.length + 1 < 4294967296)
    ∧ ((FileArchive.serializeVecComp (fun ar s => ar.serializeString s) []
        (mkFileArchive "a" Mode.Write true []) [[97], [98, 99]]).1.stream.out
      = toBytes32 ([[97], [98, 99]] : List (List Nat)).length
          ++ (([[97], [98, 99]] : List (List Nat)).map stringWire).flatten
    ∧ (FileArchive.serializeVecComp (fun ar s => ar.serializeString s) []
        (mkFileArchive "b" Mode.Read true
          (toBytes32 ([[97], [98, 99]] : List (List Nat)).length
            ++ (([[97], [98, 99]] : List (List Nat)).map stringWire).flatten)) []).2
      = ([[97], [98, 99]] : List (List Nat)).map (fun s => s ++ [0])) :=
  ⟨⟨by decide, by decide⟩,
    composite_vector_paths "a" "b" [[97], [98, 99]] (by decide) (by decide)⟩

/-- C5: on destruction of a `FileArchive` owning an open file
(`s.isOpen = true`), the underlying file stream is closed exactly once,
unconditionally — whether the stream is valid (`s.good = true`) or
invalid (`s.good = false`) at destruction time.  When the stream is
invalid the explicit `file_->close()` in the destructor body performs the
close; when it is valid the close happens when the owned `fstream` member
is destroyed.  In both cases the handle ends released. -/
theorem destructor_closes_once (s : StreamHandle) (h : s.isOpen = true) :
    (fileArchiveDestruct s).closeCount = s.closeCount + 1
    ∧ (fileArchiveDestruct s).isOpen = false := by
  cases hg : s.good <;>
    simp [fileArchiveDestruct, StreamHandle.fstreamDestroy,
      StreamHandle.close, h, hg]

/-- Witness for C5 with an open but invalid stream. -/
theorem destructor_closes_once_witness :
    (StreamHandle.mk true false 0).isOpen = true
    ∧ (fileArchiveDestruct (StreamHandle.mk true false 0)).closeCount
        = (StreamHandle.mk true false 0).closeCount + 1
    ∧ (fileArchiveDestruct (StreamHandle.mk true false 0)).isOpen = false :=
  ⟨rfl, destructor_closes_once (StreamHandle.mk true false 0) rfl⟩

/-- C6: if the underlying stream is invalid (failed to open), every
scalar (`int`, `unsigned int`, `std::string`) and buffer operation is a
silent no-op: the archive (hence the file stream, both its written bytes
and its remaining input) is unchanged, the destination value is returned
unchanged, and no error is signalled (the buffer operation returns
`some`, i.e. it does not abort). -/
theorem invalid_stream_noop (a : FileArchive) (h : a.IsStreamValid = false)
    (v u : Nat) (s d : List Nat) (b : Nat) :
    a.serializeInt v = (a, v)
    ∧ a.serializeUInt u = (a, u)
    ∧ a.serializeString s = (a, s)
    ∧ a.serializeBuffer d b = some (a, d) := by
  refine ⟨?_, ?_, ?_, ?_⟩ <;>
    simp [FileArchive.serializeInt, FileArchive.serializeUInt,
      FileArchive.serializeString, FileArchive.serializeBuffer, h]

/-- Witness for C6 on a Read-mode archive whose open failed (nonempty
on-disk content, so the no-op is not vacuous). -/
theorem invalid_stream_noop_witness :
    (FileArchive.mk Mode.Read "f" (FStream.mk false [] [7, 7, 7, 7])).IsStreamValid = false
    ∧ ((FileArchive.mk Mode.Read "f" (FStream.mk false [] [7, 7, 7, 7])).serializeInt 5
        = (FileArchive.mk Mode.Read "f" (FStream.mk false [] [7, 7, 7, 7]), 5)
      ∧ (FileArchive.mk Mode.Read "f" (FStream.mk false [] [7, 7, 7, 7])).serializeUInt 6
        = (FileArchive.mk Mode.Read "f" (FStream.mk false [] [7, 7, 7, 7]), 6)
      ∧ (FileArchive.mk Mode.Read "f" (FStream.mk false [] [7, 7, 7, 7])).serializeString [8]
        = (FileArchive.mk Mode.Read "f" (FStream.mk false [] [7, 7, 7, 7]), [8])
      ∧ (FileArchive.mk Mode.Read "f" (FStream.mk false [] [7, 7, 7, 7])).serializeBuffer [9] 1
        = some (FileArchive.mk Mode.Read "f" (FStream.mk false [] [7, 7, 7, 7]), [9])) :=
  ⟨rfl, invalid_stream_noop
    (FileArchive.mk Mode.Read "f" (FStream.mk false [] [7, 7, 7, 7])) rfl 5 6 [8] [9] 1⟩

/-- C7: during a buffer read on a valid Read-mode stream, if the 4-byte
byte-count stored on the medium (the first four input bytes) does not
equal the 32-bit image of the byte-count the caller expects, the
operation returns `none` — the model of `assert(read_bytes == bytes)`
terminating the process — rather than proceeding to fill the
container. -/
theorem buffer_mismatch_aborts (a : FileArchive) (data : List Nat)
    (bytes : Nat)
    (hm : a.mode = Mode.Read) (hv : a.stream.valid = true)
    (hlen : 4 ≤ a.stream.inp.length)
    (hne : fromBytes32 (a.stream.inp.take 4) ≠ bytes % 4294967296) :
    a.serializeBuffer data bytes = none := by
  have hr : a.stream.readBytes 4
      = ({ a.stream with inp := a.stream.inp.drop 4 },
          some (a.stream.inp.take 4)) := by
    unfold FStream.readBytes
    rw [if_pos hlen]
  simp [FileArchive.serializeBuffer, FileArchive.IsStreamValid,
    FileArchive.IsWrite, hm, hv, hr, hne]

/-- Witness for C7: the medium stores byte-count 9 but the caller expects
12. -/
theorem buffer_mismatch_aborts_witness :
    (FileArchive.mk Mode.Read "f" (FStream.mk true [] [9, 0, 0, 0, 1, 2, 3])).mode = Mode.Read
    ∧ (FileArchive.mk Mode.Read "f" (FStream.mk true [] [9, 0, 0, 0, 1, 2, 3])).stream.valid = true
    ∧ 4 ≤ (FileArchive.mk Mode.Read "f" (FStream.mk true [] [9, 0, 0, 0, 1, 2, 3])).stream.inp.length
    ∧ fromBytes32 ((FileArchive.mk Mode.Read "f"
        (FStream.mk true [] [9, 0, 0, 0, 1, 2, 3])).stream.inp.take 4) ≠ 12 % 4294967296
    ∧ (FileArchive.mk Mode.Read "f"
        (FStream.mk true [] [9, 0, 0, 0, 1, 2, 3])).serializeBuffer [0, 0, 0] 12 = none :=
  ⟨rfl, rfl, by decide, by decide,
    buffer_mismatch_aborts
      (FileArchive.mk Mode.Read "f" (FStream.mk true [] [9, 0, 0, 0, 1, 2, 3]))
      [0, 0, 0] 12 rfl rfl (by decide) (by decide)⟩

/-- C8: a vector element type is serialized via the bulk-buffer fast path
iff it is an integral or floating-point type (the `BasicType` concept);
every other element type — text, nested containers, user objects — takes
the per-element composite path.  The selection `vectorUsesBulkPath` is a
pure function of the element type, i.e. resolved statically per container
instantiation. -/
theorem basic_type_classification (t u : CppType) (n : Nat) :
    (vectorUsesBulkPath t = true
      ↔ (t.isIntegral = true ∨ t.isFloatingPoint = true))
    ∧ vectorUsesBulkPath CppType.tString = false
    ∧ vectorUsesBulkPath (CppType.tVector u) = false
    ∧ vectorUsesBulkPath (CppType.tUserObject n) = false := by
  refine ⟨?_, rfl, rfl, rfl⟩
  cases t <;>
    simp [vectorUsesBulkPath, BasicType, CppType.isIntegral,
      CppType.isFloatingPoint]

/-- C9: serializing the same `Foo` to two different file paths via
`SerializeToFile` writes the same byte sequence to both files, and
deserializing each file into a fresh (default-constructed) object via
`SerializeFromFile` yields two objects equal to each other and to the
original — except that every text field (`str` and each `vector_str`
entry) carries the appended terminator byte. -/
theorem idempotence_across_files (f : Foo) (p q : String)
    (hif : f.integer < 4294967296)
    (hstr : f.str.length + 1 < 4294967296)
    (hv : f.vector.length < 4294967296)
    (hvx : ∀ x ∈ f.vector, x < 4294967296)
    (hvs : f.vector_str.length < 4294967296)
    (hss : ∀ s ∈ f.vector_str, s.length + 1 < 4294967296) :
    ∃ bytes : List Nat,
      (SerializeToFile Foo.Serialize f p true).map Prod.fst = some bytes
      ∧ (SerializeToFile Foo.Serialize f q true).map Prod.fst = some bytes
      ∧ SerializeFromFile Foo.Serialize defaultFoo p true bytes
          = SerializeFromFile Foo.Serialize defaultFoo q true bytes
      ∧ SerializeFromFile Foo.Serialize defaultFoo p true bytes
          = some (Foo.mk f.integer (f.str ++ [0]) f.vector
              (f.vector_str.map (fun s => s ++ [0]))) := by
  have hwp := fooSerialize_write f p [] [] hstr hv hvs hss
  have hwq := fooSerialize_write f q [] [] hstr hv hvs hss
  have hrp := fooSerialize_read f defaultFoo p [] [] hif hstr hv hvx hvs hss
  have hrq := fooSerialize_read f defaultFoo q [] [] hif hstr hv hvx hvs hss
  rw [List.append_nil] at hrp hrq
  refine ⟨fooWire f, ?_, ?_, ?_, ?_⟩
  · simp [SerializeToFile, mkFileArchive, hwp]
  · simp [SerializeToFile, mkFileArchive, hwq]
  · simp [SerializeFromFile, mkFileArchive, hrp, hrq]
  · simp [SerializeFromFile, mkFileArchive, hrp]

/-- Witness for C9 with the demo object values (`integer = 2`,
`str = "Hello"`, `vector = [1, 2, 3]`, `vector_str = [[97], [98, 99]]`). -/
theorem idempotence_across_files_witness :
    ((Foo.mk 2 [72, 101, 108, 108, 111] [1, 2, 3] [[97], [98, 99]]).integer < 4294967296
      ∧ (Foo.mk 2 [72, 101, 108, 108, 111] [1, 2, 3] [[97], [98, 99]]).str.length + 1 < 4294967296
      ∧ (Foo.mk 2 [72, 101, 108, 108, 111] [1, 2, 3] [[97], [98, 99]]).vector.length < 4294967296
      ∧ (∀ x ∈ (Foo.mk 2 [72, 101, 108, 108, 111] [1, 2, 3] [[97], [98, 99]]).vector, x < 4294967296)
      ∧ (Foo.mk 2 [72, 101, 108, 108, 111] [1, 2, 3] [[97], [98, 99]]).vector_str.length < 4294967296
      ∧ ∀ s ∈ (Foo.mk 2 [72, 101, 108, 108, 111] [1, 2, 3] [[97], [98, 99]]).vector_str,
          s.length + 1 < 4294967296)
    ∧ ∃ bytes : List Nat,
      (SerializeToFile Foo.Serialize
          (Foo.mk 2 [72, 101, 108, 108, 111] [1, 2, 3] [[97], [98, 99]]) "p1" true).map Prod.fst
        = some bytes
      ∧ (SerializeToFile Foo.Serialize
          (Foo.mk 2 [72, 101, 108, 108, 111] [1, 2, 3] [[97], [98, 99]]) "p2" true).map Prod.fst
        = some bytes
      ∧ SerializeFromFile Foo.Serialize defaultFoo "p1" true bytes
          = SerializeFromFile Foo.Serialize defaultFoo "p2" true bytes
      ∧ SerializeFromFile Foo.Serialize defaultFoo "p1" true bytes
          = some (Foo.mk
              (Foo.mk 2 [72, 101, 108, 108, 111] [1, 2, 3] [[97], [98, 99]]).integer
              ((Foo.mk 2 [72, 101, 108, 108, 111] [1, 2, 3] [[97], [98, 99]]).str ++ [0])
              (Foo.mk 2 [72, 101, 108, 108, 111] [1, 2, 3] [[97], [98, 99]]).vector
              ((Foo.mk 2 [72, 101, 108, 108, 111] [1, 2, 3] [[97], [98, 99]]).vector_str.map
                (fun s => s ++ [0]))) :=
  ⟨⟨by decide, by decide, by decide, by decide, by decide, by decide⟩,
    idempotence_across_files
      (Foo.mk 2 [72, 101, 108, 108, 111] [1, 2, 3] [[97], [98, 99]]) "p1" "p2"
      (by decide) (by decide) (by decide) (by decide) (by decide) (by decide)⟩

/-- C10: for a file produced by writing a plain-numeric vector, reading
the same vector type back never triggers the byte-count mismatch check:
the read of the self-written encoding returns `some` (the only `none`
source in this path being the `assert`'s failure branch), with no bound
required on the element values. -/
theorem wellformed_buffer_read_no_abort (p q : String) (sz : Nat)
    (val : List Nat) (hlen : val.length < 4294967296) :
    ∃ aw : FileArchive,
      FileArchive.serializeVecBasic sz (mkFileArchive p Mode.Write true []) val
        = some (aw, val)
      ∧ (FileArchive.serializeVecBasic sz
          (mkFileArchive q Mode.Read true aw.stream.out) []).isSome = true := by
  refine ⟨⟨Mode.Write, p, ⟨true, vecBasicWire sz val, []⟩⟩, ?_, ?_⟩
  · have h := serializeVecBasic_write_c sz p [] [] val hlen
    simpa [mkFileArchive] using h
  · have h := serializeVecBasic_read_raw sz q [] [] val [] hlen
    simp only [List.append_nil] at h
    simp [mkFileArchive, h]

/-- Witness for C10 at `sz = 4`, `val = [5]`. -/
theorem wellformed_buffer_read_no_abort_witness :
    ([5] : List Nat).length < 4294967296
    ∧ ∃ aw : FileArchive,
      FileArchive.serializeVecBasic 4 (mkFileArchive "a" Mode.Write true []) [5]
        = some (aw, [5])
      ∧ (FileArchive.serializeVecBasic 4
          (mkFileArchive "b" Mode.Read true aw.stream.out) []).isSome = true :=
  ⟨by decide, wellformed_buffer_read_no_abort "a" "b" 4 [5] (by decide)⟩

end Serializer
